import Mathlib

/-!
Verification development for the OctaSine audio-generation core.

The Rust source is shallowly embedded in Lean: f64 values become rationals,
machine loops become folds or explicitly unrolled iteration, and fallible
array indexing becomes Option.  Transcendental helpers that live outside the
embedded crate (the fast-sine polynomial of the simd module, the powf
intrinsic, 2*pi) are passed as explicit function or value parameters, so the
theorems quantify over them.
-/

set_option maxHeartbeats 1000000

namespace OctaSine

/-- Embeds the two-variant `WaveType` enum from `common.rs`. -/
inductive WaveType where
  | sine
  | whiteNoise
deriving DecidableEq, Repr

/-- Modelled from the spec: the zero-value limit ε used by the operator
dependency analysis (`ZERO_VALUE_LIMIT` lives in the constants module, which
is absent from `src/`; the spec only requires a small positive ε, and none of
the verified claims depend on the exact value). -/
def ZERO_VALUE_LIMIT : ℚ := 1 / 1000

namespace Gen

/-- First pass of `run_operator_dependency_analysis` (gen/mod.rs lines
556-567), `operator_generate_audio` component: entry `i` is set to `false`
exactly when the gathered operator volume is below the zero-value limit. -/
def analysis_generate_initial (vol : Fin 4 → ℚ) : Fin 4 → Bool :=
  fun i => !decide (vol i < ZERO_VALUE_LIMIT)

/-- First pass of `run_operator_dependency_analysis`,
`operator_additive_zero` component: left `false` when the volume is below the
limit (the `else` branch is not taken), otherwise records whether the
additive factor is below the limit. -/
def analysis_additive_zero (vol add : Fin 4 → ℚ) : Fin 4 → Bool :=
  fun i => if vol i < ZERO_VALUE_LIMIT then false else decide (add i < ZERO_VALUE_LIMIT)

/-- First pass of `run_operator_dependency_analysis`,
`operator_modulation_index_zero` component. -/
def analysis_modulation_index_zero (vol mi : Fin 4 → ℚ) : Fin 4 → Bool :=
  fun i => if vol i < ZERO_VALUE_LIMIT then false else decide (mi i < ZERO_VALUE_LIMIT)

/-- The `skip_condition` boolean of gen/mod.rs lines 574-586, for operator
`p` with current `operator_generate_audio` state `g`. -/
def analysis_skip_condition (az mz : Fin 4 → Bool) (wt : Fin 4 → WaveType)
    (tg : Fin 4 → Fin 4) (g : Fin 4 → Bool) (p : Fin 4) : Bool :=
  !g p || (az p && (!g (tg p) || decide (wt (tg p) = WaveType.whiteNoise) || mz (tg p)))

/-- One body execution of the inner loop of the triple pass: operator `p` is
set to non-generating when its skip condition holds; other entries are
untouched. -/
def analysis_step (az mz : Fin 4 → Bool) (wt : Fin 4 → WaveType)
    (tg : Fin 4 → Fin 4) (g : Fin 4 → Bool) (p : Fin 4) : Fin 4 → Bool :=
  fun j => if j = p then (if analysis_skip_condition az mz wt tg g p then false else g j) else g j

/-- One pass `for operator_index in 1..4` of the analysis (the in-place
sequential sweep over operators 1, 2, 3). -/
def analysis_pass (az mz : Fin 4 → Bool) (wt : Fin 4 → WaveType)
    (tg : Fin 4 → Fin 4) (g : Fin 4 → Bool) : Fin 4 → Bool :=
  analysis_step az mz wt tg (analysis_step az mz wt tg (analysis_step az mz wt tg g 1) 2) 3

/-- Iterated passes, used to relate the three hard-coded passes to the
spec-side chain depth. -/
def analysis_passes (az mz : Fin 4 → Bool) (wt : Fin 4 → WaveType)
    (tg : Fin 4 → Fin 4) : ℕ → (Fin 4 → Bool) → (Fin 4 → Bool)
  | 0, g => g
  | n + 1, g => analysis_pass az mz wt tg (analysis_passes az mz wt tg n g)

/-- Embeds `run_operator_dependency_analysis` (gen/mod.rs lines 545-595):
one initial volume pass, then three in-place sweeps over operators 1..4. -/
def run_operator_dependency_analysis (vol add mi : Fin 4 → ℚ)
    (wt : Fin 4 → WaveType) (tg : Fin 4 → Fin 4) : Fin 4 → Bool :=
  analysis_passes (analysis_additive_zero vol add) (analysis_modulation_index_zero vol mi)
    wt tg 3 (analysis_generate_initial vol)

/-- Spec-side definition (section 4.5 of the spec): the least fixed point of
the skippability rules.  An operator is skippable iff its volume is below the
limit, or it has a modulation target (operators 2-4, i.e. index nonzero), its
additive factor is below the limit, and the target is skippable, a
white-noise operator, or has modulation index below the limit. -/
inductive Skippable (vol add mi : Fin 4 → ℚ) (wt : Fin 4 → WaveType)
    (tg : Fin 4 → Fin 4) : Fin 4 → Prop where
  | volume_off (i : Fin 4) : vol i < ZERO_VALUE_LIMIT → Skippable vol add mi wt tg i
  | chained_target_skippable (i : Fin 4) : i ≠ 0 → add i < ZERO_VALUE_LIMIT →
      Skippable vol add mi wt tg (tg i) → Skippable vol add mi wt tg i
  | chained_target_noise (i : Fin 4) : i ≠ 0 → add i < ZERO_VALUE_LIMIT →
      wt (tg i) = WaveType.whiteNoise → Skippable vol add mi wt tg i
  | chained_target_mod_off (i : Fin 4) : i ≠ 0 → add i < ZERO_VALUE_LIMIT →
      mi (tg i) < ZERO_VALUE_LIMIT → Skippable vol add mi wt tg i

/-- Depth-indexed variant of `Skippable`: `SkChain n i` holds when a
derivation exists whose chain of modulation-target steps has length at most
`n`. -/
def SkChain (vol add mi : Fin 4 → ℚ) (wt : Fin 4 → WaveType)
    (tg : Fin 4 → Fin 4) : ℕ → Fin 4 → Prop
  | 0, i => vol i < ZERO_VALUE_LIMIT
  | n + 1, i => SkChain vol add mi wt tg n i ∨
      (i ≠ 0 ∧ add i < ZERO_VALUE_LIMIT ∧
        (wt (tg i) = WaveType.whiteNoise ∨ mi (tg i) < ZERO_VALUE_LIMIT ∨
          SkChain vol add mi wt tg n (tg i)))

/-! ### The sample-generation kernel (gen/mod.rs `process`)

The packed-double lanes of the simd module (absent from `src/`) are modelled
as (left, right) pairs of rationals, matching the scalar fallback width where
one packed vector holds the two stereo channels of one sample.  The fast-sine
polynomial and the 2*pi constant come from outside `src/`, so they are
explicit parameters `fast_sin` and `tau`. -/

/-- Modelled from the spec: `pd_set1` of the simd module broadcasts a scalar
to both lanes. -/
def pd_set1 (a : ℚ) : ℚ × ℚ := (a, a)

/-- Modelled from the spec: lane-wise addition. -/
def pd_add (x y : ℚ × ℚ) : ℚ × ℚ := (x.1 + y.1, x.2 + y.2)

/-- Modelled from the spec: lane-wise subtraction. -/
def pd_sub (x y : ℚ × ℚ) : ℚ × ℚ := (x.1 - y.1, x.2 - y.2)

/-- Modelled from the spec: lane-wise multiplication. -/
def pd_mul (x y : ℚ × ℚ) : ℚ × ℚ := (x.1 * y.1, x.2 * y.2)

/-- Modelled from the spec: `pd_pairwise_horizontal_sum` replaces each
stereo pair by the sum of its two lanes. -/
def pd_pairwise_horizontal_sum (x : ℚ × ℚ) : ℚ × ℚ := (x.1 + x.2, x.1 + x.2)

/-- Modelled from the spec: `pd_distribute_left_right l r` builds the packed
vector whose left lane is `l` and right lane is `r`. -/
def pd_distribute_left_right (l r : ℚ) : ℚ × ℚ := (l, r)

/-- Modelled from the spec: lane-wise application of a scalar function
(`pd_fast_sin` applies the fast-sine approximation to every lane). -/
def pd_map (f : ℚ → ℚ) (x : ℚ × ℚ) : ℚ × ℚ := (f x.1, f x.2)

/-- Modelled from the spec: `pd_first_over_zero_limit` tests whether the
first lane exceeds the zero-value limit (the per-frame early-out "if vol is
at most ε skip this frame" of spec section 4.6). -/
def pd_first_over_zero_limit (x : ℚ × ℚ) : Bool := decide (ZERO_VALUE_LIMIT < x.1)

/-- Per-voice data gathered by `process` (gen/mod.rs lines 192-345) before
the operator loop: interpolated parameter values with LFO additions applied,
wave types, modulation targets, the constant-power panning pair, the
envelope-volume and phase tables, the white-noise draws, and the voice volume
factor `VOICE_VOLUME_FACTOR * master_volume * key_velocity`.  `n` is
`S::SAMPLES`; tables are stored per sample (the code duplicates each value
into the two channel lanes, which the pair model makes implicit). -/
structure VoiceData (n : ℕ) where
  operator_volume : Fin 4 → ℚ
  operator_modulation_index : Fin 4 → ℚ
  operator_feedback : Fin 4 → ℚ
  operator_panning : Fin 4 → ℚ
  operator_additive_raw : Fin 4 → ℚ
  operator_wave_type : Fin 4 → WaveType
  operator_modulation_targets : Fin 4 → Fin 4
  panning_left_and_right : Fin 4 → ℚ × ℚ
  operator_envelope_volumes : Fin 4 → Fin n → ℚ
  operator_phases : Fin 4 → Fin n → ℚ
  random_numbers : Fin 4 → Fin n → ℚ
  voice_volume_factor : ℚ

/-- The gathered additive factor (gen/mod.rs lines 237-248): operator 1
(index 0) is forced to `1.0`; other operators use the parameter value with
LFO addition applied. -/
def operator_additive {n : ℕ} (v : VoiceData n) (i : Fin 4) : ℚ :=
  if i = 0 then 1 else v.operator_additive_raw i

/-- The mutable state threaded through the per-voice operator loop:
`voice_modulation_inputs` (reset to zero for each voice) and the global
`summed_additive_outputs` accumulator. -/
structure GenState (n : ℕ) where
  voice_modulation_inputs : Fin 4 → Fin n → ℚ × ℚ
  summed_additive_outputs : Fin n → ℚ × ℚ

/-- One loop iteration body of the `0..SAMPLES*2` loop for operator `k` at
sample `i` (gen/mod.rs lines 390-418 for white noise, 453-522 for sine).
Returns the pair (modulation output, additive output scaled by the voice
volume factor); a sine-branch frame whose volume product does not exceed the
zero limit contributes nothing. -/
def operator_sample_outputs {n : ℕ} (fast_sin : ℚ → ℚ) (tau : ℚ) (v : VoiceData n)
    (k : Fin 4) (s : GenState n) (i : Fin n) : (ℚ × ℚ) × (ℚ × ℚ) :=
  let envelope_volume := pd_set1 (v.operator_envelope_volumes k i)
  let volume_product := pd_mul (pd_set1 (v.operator_volume k)) envelope_volume
  match v.operator_wave_type k with
  | WaveType.whiteNoise =>
    let sample := pd_set1 (v.random_numbers k i)
    let sample_adjusted := pd_mul (pd_mul sample volume_product) (v.panning_left_and_right k)
    let additive_out := pd_mul sample_adjusted (pd_set1 (operator_additive v k))
    let modulation_out := pd_sub sample_adjusted additive_out
    (modulation_out, pd_mul additive_out (pd_set1 v.voice_volume_factor))
  | WaveType.sine =>
    if pd_first_over_zero_limit volume_product then
      let phase := pd_mul (pd_set1 (v.operator_phases k i)) (pd_set1 tau)
      let modulation_in_for_channel := s.voice_modulation_inputs k i
      let modulation_in_channel_sum := pd_pairwise_horizontal_sum modulation_in_for_channel
      let pan_transformed := 2 * (v.operator_panning k - 1 / 2)
      let tendency :=
        pd_distribute_left_right (max (pan_transformed * (-1)) 0) (max pan_transformed 0)
      let one_minus_tendency := pd_sub (pd_set1 1) tendency
      let modulation_in := pd_add (pd_mul tendency modulation_in_channel_sum)
        (pd_mul one_minus_tendency modulation_in_for_channel)
      let feedback := pd_mul (pd_set1 (v.operator_feedback k)) (pd_map fast_sin phase)
      let sin_input := pd_add
        (pd_mul (pd_set1 (v.operator_modulation_index k)) (pd_add feedback modulation_in))
        phase
      let sample := pd_map fast_sin sin_input
      let sample_adjusted := pd_mul (pd_mul sample volume_product) (v.panning_left_and_right k)
      let additive_out := pd_mul sample_adjusted (pd_set1 (operator_additive v k))
      let modulation_out := pd_sub sample_adjusted additive_out
      (modulation_out, pd_mul additive_out (pd_set1 v.voice_volume_factor))
    else
      ((0, 0), (0, 0))

/-- The per-operator stage of the loop "Go through operators downwards"
(gen/mod.rs lines 354-524): skipped entirely when the dependency analysis
cleared `operator_generate_audio[k]`; otherwise every sample adds the
modulation output to the target operator's modulation-input row and the
scaled additive output to `summed_additive_outputs`. -/
def operator_step {n : ℕ} (fast_sin : ℚ → ℚ) (tau : ℚ) (v : VoiceData n)
    (generate : Fin 4 → Bool) (k : Fin 4) (s : GenState n) : GenState n :=
  if generate k then
    { voice_modulation_inputs := fun t j =>
        if t = v.operator_modulation_targets k then
          pd_add (s.voice_modulation_inputs t j) (operator_sample_outputs fast_sin tau v k s j).1
        else s.voice_modulation_inputs t j
      summed_additive_outputs := fun j =>
        pd_add (s.summed_additive_outputs j) (operator_sample_outputs fast_sin tau v k s j).2 }
  else s

/-- One iteration of the voice loop of `process`: dependency analysis on the
gathered values, fresh modulation-input storage, operators processed in the
order 3, 2, 1, 0; only the accumulator survives the voice. -/
def process_voice {n : ℕ} (fast_sin : ℚ → ℚ) (tau : ℚ) (v : VoiceData n)
    (summed : Fin n → ℚ × ℚ) : Fin n → ℚ × ℚ :=
  let generate := run_operator_dependency_analysis v.operator_volume (operator_additive v)
    v.operator_modulation_index v.operator_wave_type v.operator_modulation_targets
  let s0 : GenState n := ⟨fun _ _ => (0, 0), summed⟩
  (operator_step fast_sin tau v generate 0
    (operator_step fast_sin tau v generate 1
      (operator_step fast_sin tau v generate 2
        (operator_step fast_sin tau v generate 3 s0)))).summed_additive_outputs

/-- The voice loop of `process` (gen/mod.rs lines 162-525): `voices` lists
the gathered data of the active voices; `summed_additive_outputs` starts at
zero (line 160) and accumulates across voices. -/
def process_voices {n : ℕ} (fast_sin : ℚ → ℚ) (tau : ℚ) (voices : List (VoiceData n))
    (summed : Fin n → ℚ × ℚ) : Fin n → ℚ × ℚ :=
  voices.foldl (fun acc v => process_voice fast_sin tau v acc) summed

/-- Embeds the output stage of `process` (gen/mod.rs lines 527-539): the
accumulated `summed_additive_outputs` is hard-limited via
`out.min(5.0).max(-5.0)` and written to the left/right output buffers (the
f32 cast is the identity in the rational model). -/
def process {n : ℕ} (fast_sin : ℚ → ℚ) (tau : ℚ) (voices : List (VoiceData n)) :
    (Fin n → ℚ) × (Fin n → ℚ) :=
  let summed := process_voices fast_sin tau voices (fun _ => (0, 0))
  (fun i => max (min (summed i).1 5) (-5), fun i => max (min (summed i).2 5) (-5))

/-- A concrete one-sample voice whose gathered values are all zero, used to
instantiate the silence-preservation theorem. -/
def zero_voice_data : VoiceData 1 :=
  ⟨fun _ => 0, fun _ => 0, fun _ => 0, fun _ => 0, fun _ => 0,
   fun _ => WaveType.sine, fun _ => 0, fun _ => (0, 0),
   fun _ _ => 0, fun _ _ => 0, fun _ _ => 0, 0⟩

end Gen

namespace Audio

/-- Modelled from the spec: the per-voice state relevant to key handling
(`audio/voices.rs` is absent from `src/`): active flag, key-pressed flag,
and key velocity stored as `velocity / 127` clamped to [0, 1]. -/
structure Voice where
  active : Bool
  key_pressed : Bool
  key_velocity : ℚ
deriving DecidableEq, Repr

/-- Modelled from the spec: `Voice::press_key` activates the voice and
stores the clamped normalized velocity. -/
def Voice.press_key (_v : Voice) (velocity : ℕ) : Voice :=
  ⟨true, true, min 1 (max 0 ((velocity : ℚ) / 127))⟩

/-- Modelled from the spec: `Voice::release_key` clears the key-pressed
flag. -/
def Voice.release_key (v : Voice) : Voice :=
  { v with key_pressed := false }

/-- The `AudioState` voice array (audio/mod.rs lines 44-54), restricted to
the 128 voice slots that key handling touches. -/
structure AudioStateM where
  voices : Fin 128 → Voice

/-- The default `AudioState` (audio/mod.rs lines 56-71): 128 fresh voices. -/
def initial_audio_state : AudioStateM :=
  ⟨fun _ => ⟨false, false, 0⟩⟩

/-- Embeds `key_on` (audio/mod.rs lines 117-119):
`self.voices[pitch as usize].press_key(velocity)`.  The Rust indexing panics
when `pitch >= 128`; the model returns `none` there. -/
def key_on (s : AudioStateM) (pitch velocity : ℕ) : Option AudioStateM :=
  if h : pitch < 128 then
    some ⟨Function.update s.voices ⟨pitch, h⟩ ((s.voices ⟨pitch, h⟩).press_key velocity)⟩
  else
    none

/-- Embeds `key_off` (audio/mod.rs lines 121-123). -/
def key_off (s : AudioStateM) (pitch : ℕ) : Option AudioStateM :=
  if h : pitch < 128 then
    some ⟨Function.update s.voices ⟨pitch, h⟩ ((s.voices ⟨pitch, h⟩).release_key)⟩
  else
    none

/-- Embeds `process_midi_event` (audio/mod.rs lines 106-115): the status
byte is shifted right by four (dropping the channel nibble) and the result
matched against note-off `0b1000`, note-on `0b1001` with zero velocity
(treated as note-off), note-on with nonzero velocity, and a catch-all that
leaves the state unchanged. -/
def process_midi_event (s : AudioStateM) (data : ℕ × ℕ × ℕ) : Option AudioStateM :=
  let status := data.1 / 16
  if status = 8 then key_off s data.2.1
  else if status = 9 then
    if data.2.2 = 0 then key_off s data.2.1
    else key_on s data.2.1 data.2.2
  else some s

end Audio

namespace Sync

/-- Modelled from the spec: `PatchParameter::set_value` (sync/parameters.rs
is absent from `src/`) stores the supplied normalized value into the
parameter's atomic cell as-is; any clamping is done by the caller (the
GUI-side caller clamps at patch_bank.rs line 260, the host-side caller at
line 270 does not). -/
def patch_parameter_set_value (_old v : ℚ) : ℚ := v

/-- A patch, reduced to its ordered parameter values (the `IndexMap` of
`Patch` in patch_bank.rs, keyed by position). -/
structure PatchM where
  parameters : List ℚ
deriving DecidableEq, Repr

/-- The `PatchBank` state relevant to the verified claims (patch_bank.rs
lines 97-103): 128 patches, the current patch index, the two
parameter-change flag sets (modelled as booleans recording whether anything
was marked), and the patches-changed flag. -/
structure PatchBankM where
  patches : Fin 128 → PatchM
  patch_index : ℕ
  audio_changed : Bool
  gui_changed : Bool
  patches_changed : Bool

/-- A fresh `PatchBank` (patch_bank.rs lines 112-120): index 0, no pending
change flags. -/
def initial_patch_bank (p : PatchM) : PatchBankM :=
  ⟨fun _ => p, 0, false, false, false⟩

/-- Embeds `get_patch_index` (patch_bank.rs lines 167-169). -/
def get_patch_index (b : PatchBankM) : ℕ := b.patch_index

/-- Embeds `set_patch_index` (patch_bank.rs lines 171-179): indices at or
beyond `patches.len() = 128` return early, touching nothing; valid indices
are stored and all change flags raised (`mark_parameters_as_changed`). -/
def set_patch_index (b : PatchBankM) (index : ℕ) : PatchBankM :=
  if 128 ≤ index then b
  else { b with
    patch_index := index
    patches_changed := true
    audio_changed := true
    gui_changed := true }

/-- Embeds `get_current_patch` (patch_bank.rs lines 145-147):
`&self.patches[self.get_patch_index()]`; out-of-range indexing would panic,
modelled as `none`. -/
def get_current_patch (b : PatchBankM) : Option PatchM :=
  if h : b.patch_index < 128 then some (b.patches ⟨b.patch_index, h⟩) else none

/-- Embeds `get_parameter_by_index` / `get_parameter_value` (patch_bank.rs
lines 124-129 and 225-230): the parameter of the current patch at `index`,
when it exists. -/
def get_parameter_value (b : PatchBankM) (index : ℕ) : Option ℚ :=
  (get_current_patch b).bind fun p => p.parameters.get? index

/-- Replaces the current patch's parameter list in the bank. -/
def set_current_parameters (b : PatchBankM) (ps : List ℚ) : PatchBankM :=
  { b with patches := fun j =>
      if (j : ℕ) = b.patch_index then ⟨ps⟩ else b.patches j }

/-- Embeds `set_parameter_from_gui` (patch_bank.rs lines 256-264): when the
index resolves to a parameter, store `value.min(1.0).max(0.0)` and mark the
audio-side change info. -/
def set_parameter_from_gui (b : PatchBankM) (index : ℕ) (value : ℚ) : PatchBankM :=
  match get_current_patch b with
  | none => b
  | some p =>
    match p.parameters.get? index with
    | none => b
    | some old =>
      { set_current_parameters b
          (p.parameters.set index (patch_parameter_set_value old (max (min value 1) 0))) with
        audio_changed := true }

/-- Embeds `set_parameter_from_host` (patch_bank.rs lines 266-275): when the
index resolves to a parameter, store the value unchanged (`value as f32`)
and mark both change-info sides. -/
def set_parameter_from_host (b : PatchBankM) (index : ℕ) (value : ℚ) : PatchBankM :=
  match get_current_patch b with
  | none => b
  | some p =>
    match p.parameters.get? index with
    | none => b
    | some old =>
      { set_current_parameters b
          (p.parameters.set index (patch_parameter_set_value old value)) with
        audio_changed := true
        gui_changed := true }

/-- A concrete bank whose patches hold one parameter at value 1/2, used to
instantiate the parameter-setting theorems. -/
def example_bank : PatchBankM := initial_patch_bank ⟨[1 / 2]⟩

end Sync

namespace Params

/-- The processing-parameter implementations of
parameters/processing/parameters.rs that expose
`get_value_with_lfo_addition`. -/
inductive ProcessingParameterKind where
  | interpolatable
  | simple
  | masterVolume
  | operatorVolume
  | operatorVolumeToggle
  | operatorMix
  | freeFrequency
  | operatorPanning
  | lfoAmount
deriving DecidableEq, Repr

/-- Embeds `InterpolatableProcessingParameter::get_value_with_lfo_addition`
(parameters.rs lines 45-53): convert the current processing value to sync
space (`to_sync` stands for `from_processing(..).to_sync()`), add the LFO
addition, clamp with `.min(1.0).max(0.0)`, convert back. -/
def interpolatable_get_value_with_lfo_addition (to_sync from_sync : ℚ → ℚ)
    (current : ℚ) (lfo_addition : Option ℚ) : ℚ :=
  match lfo_addition with
  | some a => from_sync (max (min (to_sync current + a) 1) 0)
  | none => current

/-- Embeds `SimpleProcessingParameter::get_value_with_lfo_addition`
(parameters.rs lines 84-90): like the interpolatable case but starting from
the cached sync value. -/
def simple_get_value_with_lfo_addition (from_sync : ℚ → ℚ)
    (sync_cache current : ℚ) (lfo_addition : Option ℚ) : ℚ :=
  match lfo_addition with
  | some a => from_sync (max (min (sync_cache + a) 1) 0)
  | none => current

/-- Embeds `MasterVolumeProcessingParameter::get_value_with_lfo_addition`
(parameters.rs lines 123-129): `self.get_value() * 2.0f64.powf(lfo_addition)`;
`pow2` stands for the base-two power function. -/
def master_volume_get_value_with_lfo_addition (pow2 : ℚ → ℚ)
    (current : ℚ) (lfo_addition : Option ℚ) : ℚ :=
  match lfo_addition with
  | some a => current * pow2 a
  | none => current

/-- Embeds `OperatorVolumeProcessingParameter::get_value_with_lfo_addition`
(parameters.rs lines 162-168). -/
def operator_volume_get_value_with_lfo_addition (pow2 : ℚ → ℚ)
    (current : ℚ) (lfo_addition : Option ℚ) : ℚ :=
  match lfo_addition with
  | some a => current * pow2 a
  | none => current

/-- Embeds
`OperatorVolumeToggleProcessingParameter::get_value_with_lfo_addition`
(parameters.rs lines 197-199): the LFO addition is ignored. -/
def operator_volume_toggle_get_value_with_lfo_addition
    (current : ℚ) (_lfo_addition : Option ℚ) : ℚ :=
  current

/-- Embeds `OperatorMixProcessingParameter::get_value_with_lfo_addition`
(parameters.rs lines 230-238): additive in sync space. -/
def operator_mix_get_value_with_lfo_addition (to_sync from_sync : ℚ → ℚ)
    (current : ℚ) (lfo_addition : Option ℚ) : ℚ :=
  match lfo_addition with
  | some a => from_sync (max (min (to_sync current + a) 1) 0)
  | none => current

/-- Embeds `FreeFrequencyProcessingParameter::get_value_with_lfo_addition`
(parameters.rs lines 268-274): `self.get_value() * 2.0f64.powf(lfo_addition)`. -/
def free_frequency_get_value_with_lfo_addition (pow2 : ℚ → ℚ)
    (current : ℚ) (lfo_addition : Option ℚ) : ℚ :=
  match lfo_addition with
  | some a => current * pow2 a
  | none => current

/-- Embeds the value returned by
`OperatorPanningProcessingParameter::get_value_with_lfo_addition`
(parameters.rs lines 360-375): additive in sync space (the method also
refreshes the cached constant-power pair, a side effect not needed by the
claims). -/
def operator_panning_get_value_with_lfo_addition (to_sync from_sync : ℚ → ℚ)
    (current : ℚ) (lfo_addition : Option ℚ) : ℚ :=
  match lfo_addition with
  | some a => from_sync (max (min (to_sync current + a) 1) 0)
  | none => current

/-- Embeds `LfoAmountProcessingParameter::get_value_with_lfo_addition`
(parameters.rs lines 467-473). -/
def lfo_amount_get_value_with_lfo_addition (pow2 : ℚ → ℚ)
    (current : ℚ) (lfo_addition : Option ℚ) : ℚ :=
  match lfo_addition with
  | some a => current * pow2 a
  | none => current

/-- Dispatch over every `get_value_with_lfo_addition` implementation of the
file.  `to_sync`/`from_sync` stand for the parameter-specific value mapping
(the `ParameterValue` impls live outside `src/`), `pow2` for `2.0f64.powf`,
`sync_cache` for the cached sync value of simple parameters. -/
def get_value_with_lfo_addition (k : ProcessingParameterKind)
    (to_sync from_sync pow2 : ℚ → ℚ) (sync_cache current : ℚ)
    (lfo_addition : Option ℚ) : ℚ :=
  match k with
  | .interpolatable =>
    interpolatable_get_value_with_lfo_addition to_sync from_sync current lfo_addition
  | .simple => simple_get_value_with_lfo_addition from_sync sync_cache current lfo_addition
  | .masterVolume => master_volume_get_value_with_lfo_addition pow2 current lfo_addition
  | .operatorVolume => operator_volume_get_value_with_lfo_addition pow2 current lfo_addition
  | .operatorVolumeToggle =>
    operator_volume_toggle_get_value_with_lfo_addition current lfo_addition
  | .operatorMix =>
    operator_mix_get_value_with_lfo_addition to_sync from_sync current lfo_addition
  | .freeFrequency => free_frequency_get_value_with_lfo_addition pow2 current lfo_addition
  | .operatorPanning =>
    operator_panning_get_value_with_lfo_addition to_sync from_sync current lfo_addition
  | .lfoAmount => lfo_amount_get_value_with_lfo_addition pow2 current lfo_addition

/-- The volume-class parameter kinds named by the spec (master volume,
operator volume and its toggle, LFO amount); free frequency is a
frequency-class parameter, and the remaining kinds are neither. -/
def IsVolumeClass (k : ProcessingParameterKind) : Prop :=
  k = .masterVolume ∨ k = .operatorVolume ∨ k = .operatorVolumeToggle ∨ k = .lfoAmount

instance (k : ProcessingParameterKind) : Decidable (IsVolumeClass k) := by
  unfold IsVolumeClass
  infer_instance

/-- Spec-side formula (spec section 4.1): LFO modulation is additive in
normalized space, `effective = to_processing(clamp01(to_normalized(current)
+ lfo_addition))`. -/
def spec_lfo_additive_effective (to_sync from_sync : ℚ → ℚ) (current a : ℚ) : ℚ :=
  from_sync (max (min (to_sync current + a) 1) 0)

end Params

namespace Common

/-- Embeds `ModTargetStorage::<3>::permutations()` (common.rs lines 78-92),
each `[bool; 3]` as a triple. -/
def mod_target_storage_three_permutations : List (Bool × Bool × Bool) :=
  [(true, false, false),
   (true, true, false),
   (true, false, true),
   (true, true, true),
   (false, true, false),
   (false, false, true),
   (false, true, true),
   (false, false, true),
   (false, false, false)]

end Common

namespace Gen

/-! Helper lemmas about the analysis sweeps. -/

theorem analysis_step_preserve_false (az mz : Fin 4 → Bool) (wt : Fin 4 → WaveType)
    (tg : Fin 4 → Fin 4) (g : Fin 4 → Bool) (p j : Fin 4) (hg : g j = false) :
    analysis_step az mz wt tg g p j = false := by
  simp [analysis_step, hg]

theorem analysis_pass_preserve_false (az mz : Fin 4 → Bool) (wt : Fin 4 → WaveType)
    (tg : Fin 4 → Fin 4) (g : Fin 4 → Bool) (j : Fin 4) (hg : g j = false) :
    analysis_pass az mz wt tg g j = false :=
  analysis_step_preserve_false az mz wt tg _ 3 j
    (analysis_step_preserve_false az mz wt tg _ 2 j
      (analysis_step_preserve_false az mz wt tg _ 1 j hg))

theorem analysis_passes_preserve_false (az mz : Fin 4 → Bool) (wt : Fin 4 → WaveType)
    (tg : Fin 4 → Fin 4) (g : Fin 4 → Bool) (n : ℕ) (j : Fin 4) (hg : g j = false) :
    analysis_passes az mz wt tg n g j = false := by
  induction n with
  | zero => exact hg
  | succ n ih => exact analysis_pass_preserve_false az mz wt tg _ j ih

theorem analysis_step_other (az mz : Fin 4 → Bool) (wt : Fin 4 → WaveType)
    (tg : Fin 4 → Fin 4) (g : Fin 4 → Bool) (p j : Fin 4) (hjp : j ≠ p) :
    analysis_step az mz wt tg g p j = g j := by
  simp [analysis_step, hjp]

theorem analysis_skip_condition_of_ready (az mz : Fin 4 → Bool) (wt : Fin 4 → WaveType)
    (tg : Fin 4 → Fin 4) (g : Fin 4 → Bool) (p : Fin 4) (haz : az p = true)
    (h : g (tg p) = false ∨ wt (tg p) = WaveType.whiteNoise ∨ mz (tg p) = true) :
    analysis_skip_condition az mz wt tg g p = true := by
  unfold analysis_skip_condition
  rcases h with h | h | h <;> simp [haz, h]

theorem analysis_step_self (az mz : Fin 4 → Bool) (wt : Fin 4 → WaveType)
    (tg : Fin 4 → Fin 4) (g : Fin 4 → Bool) (p : Fin 4)
    (hskip : analysis_skip_condition az mz wt tg g p = true) :
    analysis_step az mz wt tg g p p = false := by
  simp [analysis_step, hskip]

/-- If an operator with a nonzero index is "ready" (additive-zero flag set,
and its target is already non-generating, white noise, or
modulation-index-zero), one sweep of the analysis turns it off. -/
theorem analysis_pass_ready_false (az mz : Fin 4 → Bool) (wt : Fin 4 → WaveType)
    (tg : Fin 4 → Fin 4) (g : Fin 4 → Bool) (p : Fin 4) (hp : p ≠ 0) (haz : az p = true)
    (h : g (tg p) = false ∨ wt (tg p) = WaveType.whiteNoise ∨ mz (tg p) = true) :
    analysis_pass az mz wt tg g p = false := by
  have ready_step : ∀ g' : Fin 4 → Bool,
      (g' (tg p) = false ∨ wt (tg p) = WaveType.whiteNoise ∨ mz (tg p) = true) →
      (analysis_step az mz wt tg g' p) p = false := fun g' h' =>
    analysis_step_self az mz wt tg g' p (analysis_skip_condition_of_ready az mz wt tg g' p haz h')
  have hpreserve : ∀ (g' : Fin 4 → Bool) (q : Fin 4),
      (g' (tg p) = false ∨ wt (tg p) = WaveType.whiteNoise ∨ mz (tg p) = true) →
      ((analysis_step az mz wt tg g' q) (tg p) = false ∨
        wt (tg p) = WaveType.whiteNoise ∨ mz (tg p) = true) := by
    intro g' q h'
    rcases h' with h' | h' | h'
    · exact Or.inl (analysis_step_preserve_false az mz wt tg g' q (tg p) h')
    · exact Or.inr (Or.inl h')
    · exact Or.inr (Or.inr h')
  fin_cases p
  · exact absurd rfl hp
  · exact analysis_step_preserve_false az mz wt tg _ 3 _
      (analysis_step_preserve_false az mz wt tg _ 2 _ (ready_step g h))
  · exact analysis_step_preserve_false az mz wt tg _ 3 _
      (ready_step _ (hpreserve g 1 h))
  · exact ready_step _ (hpreserve _ 2 (hpreserve g 1 h))

/-! Soundness: every operator turned off by the analysis is `Skippable`. -/

theorem analysis_step_sound (vol add mi : Fin 4 → ℚ) (wt : Fin 4 → WaveType)
    (tg : Fin 4 → Fin 4) (g : Fin 4 → Bool) (p : Fin 4) (hp : p ≠ 0)
    (hinv : ∀ j, g j = false → Skippable vol add mi wt tg j) :
    ∀ j, analysis_step (analysis_additive_zero vol add)
      (analysis_modulation_index_zero vol mi) wt tg g p j = false →
      Skippable vol add mi wt tg j := by
  intro j hj
  by_cases hjp : j = p
  · subst hjp
    unfold analysis_step at hj
    rw [if_pos rfl] at hj
    by_cases hskip : analysis_skip_condition (analysis_additive_zero vol add)
        (analysis_modulation_index_zero vol mi) wt tg g j = true
    · by_cases hg : g j = false
      · exact hinv j hg
      · have hg' : g j = true := by revert hg; cases g j <;> simp
        unfold analysis_skip_condition at hskip
        rw [hg'] at hskip
        simp only [Bool.not_true, Bool.false_or, Bool.and_eq_true, Bool.or_eq_true] at hskip
        obtain ⟨haz, hrest⟩ := hskip
        have haz' : add j < ZERO_VALUE_LIMIT := by
          by_cases hv : vol j < ZERO_VALUE_LIMIT
          · simp [analysis_additive_zero, hv] at haz
          · simpa [analysis_additive_zero, hv] using haz
        rcases hrest with (htg | hwn) | hmz
        · have hfalse : g (tg j) = false := by simpa using htg
          exact Skippable.chained_target_skippable j hp haz' (hinv _ hfalse)
        · exact Skippable.chained_target_noise j hp haz' (by simpa using hwn)
        · have hmi : mi (tg j) < ZERO_VALUE_LIMIT := by
            by_cases hv2 : vol (tg j) < ZERO_VALUE_LIMIT
            · simp [analysis_modulation_index_zero, hv2] at hmz
            · simpa [analysis_modulation_index_zero, hv2] using hmz
          exact Skippable.chained_target_mod_off j hp haz' hmi
    · rw [if_neg hskip] at hj
      exact hinv j hj
  · rw [analysis_step_other _ _ _ _ _ _ _ hjp] at hj
    exact hinv j hj

theorem analysis_pass_sound (vol add mi : Fin 4 → ℚ) (wt : Fin 4 → WaveType)
    (tg : Fin 4 → Fin 4) (g : Fin 4 → Bool)
    (hinv : ∀ j, g j = false → Skippable vol add mi wt tg j) :
    ∀ j, analysis_pass (analysis_additive_zero vol add)
      (analysis_modulation_index_zero vol mi) wt tg g j = false →
      Skippable vol add mi wt tg j :=
  analysis_step_sound vol add mi wt tg _ 3 (by decide)
    (fun j => analysis_step_sound vol add mi wt tg _ 2 (by decide)
      (fun j' => analysis_step_sound vol add mi wt tg g 1 (by decide) hinv j') j)

theorem analysis_passes_sound (vol add mi : Fin 4 → ℚ) (wt : Fin 4 → WaveType)
    (tg : Fin 4 → Fin 4) (g : Fin 4 → Bool) (n : ℕ)
    (hinv : ∀ j, g j = false → Skippable vol add mi wt tg j) :
    ∀ j, analysis_passes (analysis_additive_zero vol add)
      (analysis_modulation_index_zero vol mi) wt tg n g j = false →
      Skippable vol add mi wt tg j := by
  induction n with
  | zero => exact hinv
  | succ n ih => exact analysis_pass_sound vol add mi wt tg _ ih

theorem analysis_generate_initial_sound (vol add mi : Fin 4 → ℚ) (wt : Fin 4 → WaveType)
    (tg : Fin 4 → Fin 4) :
    ∀ j, analysis_generate_initial vol j = false → Skippable vol add mi wt tg j := by
  intro j hj
  refine Skippable.volume_off j ?_
  simpa [analysis_generate_initial] using hj

theorem run_operator_dependency_analysis_sound (vol add mi : Fin 4 → ℚ)
    (wt : Fin 4 → WaveType) (tg : Fin 4 → Fin 4) (i : Fin 4)
    (h : run_operator_dependency_analysis vol add mi wt tg i = false) :
    Skippable vol add mi wt tg i :=
  analysis_passes_sound vol add mi wt tg _ 3
    (analysis_generate_initial_sound vol add mi wt tg) i h

/-! Completeness: every `Skippable` operator is turned off by three sweeps. -/

theorem skChain_mono (vol add mi : Fin 4 → ℚ) (wt : Fin 4 → WaveType)
    (tg : Fin 4 → Fin 4) (n : ℕ) (i : Fin 4)
    (h : SkChain vol add mi wt tg n i) : SkChain vol add mi wt tg (n + 1) i :=
  Or.inl h

theorem skChain_mono_le (vol add mi : Fin 4 → ℚ) (wt : Fin 4 → WaveType)
    (tg : Fin 4 → Fin 4) (n m : ℕ) (hnm : n ≤ m) (i : Fin 4)
    (h : SkChain vol add mi wt tg n i) : SkChain vol add mi wt tg m i := by
  induction m with
  | zero => exact (Nat.le_zero.mp hnm) ▸ h
  | succ m ih =>
    rcases Nat.lt_or_ge n (m + 1) with hlt | hge
    · exact skChain_mono vol add mi wt tg m i (ih (Nat.lt_succ_iff.mp hlt))
    · exact (Nat.le_antisymm hnm hge) ▸ h

theorem skippable_to_chain (vol add mi : Fin 4 → ℚ) (wt : Fin 4 → WaveType)
    (tg : Fin 4 → Fin 4) (i : Fin 4) (h : Skippable vol add mi wt tg i) :
    ∃ n, SkChain vol add mi wt tg n i := by
  induction h with
  | volume_off i hv => exact ⟨0, hv⟩
  | chained_target_skippable i hne hadd _ ih =>
    obtain ⟨n, hc⟩ := ih
    exact ⟨n + 1, Or.inr ⟨hne, hadd, Or.inr (Or.inr hc)⟩⟩
  | chained_target_noise i hne hadd hwn =>
    exact ⟨1, Or.inr ⟨hne, hadd, Or.inl hwn⟩⟩
  | chained_target_mod_off i hne hadd hmi =>
    exact ⟨1, Or.inr ⟨hne, hadd, Or.inr (Or.inl hmi)⟩⟩

theorem chain_to_skippable (vol add mi : Fin 4 → ℚ) (wt : Fin 4 → WaveType)
    (tg : Fin 4 → Fin 4) : ∀ (n : ℕ) (i : Fin 4),
    SkChain vol add mi wt tg n i → Skippable vol add mi wt tg i := by
  intro n
  induction n with
  | zero => exact fun i h => Skippable.volume_off i h
  | succ n ih =>
    intro i h
    rcases h with h | ⟨hne, hadd, h3⟩
    · exact ih i h
    · rcases h3 with h3 | h3 | h3
      · exact Skippable.chained_target_noise i hne hadd h3
      · exact Skippable.chained_target_mod_off i hne hadd h3
      · exact Skippable.chained_target_skippable i hne hadd (ih _ h3)

/-- Chain-depth collapse: any derivable skippability has a derivation of
chain depth at most 3 (only three operators can occur on a chained spine). -/
theorem skChain_bound (vol add mi : Fin 4 → ℚ) (wt : Fin 4 → WaveType)
    (tg : Fin 4 → Fin 4) (i : Fin 4)
    (h : ∃ n, SkChain vol add mi wt tg n i) : SkChain vol add mi wt tg 3 i := by
  classical
  have hf_nonzero : ∀ (j : Fin 4) (hj : ∃ n, SkChain vol add mi wt tg n j),
      1 ≤ Nat.find hj → j ≠ 0 := by
    intro j hj h1
    have hspec := Nat.find_spec hj
    rcases hfj : Nat.find hj with _ | m
    · omega
    · rw [hfj] at hspec
      rcases hspec with hc | ⟨hne, _, _⟩
      · have := Nat.find_min' hj hc
        omega
      · exact hne
  have hf_step : ∀ (j : Fin 4) (hj : ∃ n, SkChain vol add mi wt tg n j),
      2 ≤ Nat.find hj →
      ∃ hj' : ∃ n, SkChain vol add mi wt tg n (tg j), Nat.find hj' + 1 = Nat.find hj := by
    intro j hj h2
    have hspec := Nat.find_spec hj
    rcases hfj : Nat.find hj with _ | m
    · omega
    · rw [hfj] at hspec
      rcases hspec with hc | ⟨hne, hadd, h3⟩
      · have := Nat.find_min' hj hc
        omega
      · rcases h3 with hwn | hmi | hc
        · have : Nat.find hj ≤ 1 :=
            Nat.find_min' hj (Or.inr ⟨hne, hadd, Or.inl hwn⟩)
          omega
        · have : Nat.find hj ≤ 1 :=
            Nat.find_min' hj (Or.inr ⟨hne, hadd, Or.inr (Or.inl hmi)⟩)
          omega
        · have hj2 : ∃ n, SkChain vol add mi wt tg n (tg j) := ⟨m, hc⟩
          refine ⟨hj2, ?_⟩
          have hle : Nat.find hj2 ≤ m := Nat.find_min' hj2 hc
          have hback : SkChain vol add mi wt tg (Nat.find hj2 + 1) j :=
            Or.inr ⟨hne, hadd, Or.inr (Or.inr (Nat.find_spec hj2))⟩
          have := Nat.find_min' hj hback
          omega
  by_cases hb : Nat.find h ≤ 3
  · exact skChain_mono_le vol add mi wt tg _ 3 hb i (Nat.find_spec h)
  · exfalso
    push_neg at hb
    obtain ⟨hE1, he1⟩ := hf_step i h (by omega)
    obtain ⟨hE2, he2⟩ := hf_step (tg i) hE1 (by omega)
    obtain ⟨hE3, he3⟩ := hf_step (tg (tg i)) hE2 (by omega)
    have hn0 : i ≠ 0 := hf_nonzero i h (by omega)
    have hn1 : tg i ≠ 0 := hf_nonzero _ hE1 (by omega)
    have hn2 : tg (tg i) ≠ 0 := hf_nonzero _ hE2 (by omega)
    have hn3 : tg (tg (tg i)) ≠ 0 := hf_nonzero _ hE3 (by omega)
    obtain ⟨r0, hr0⟩ : ∃ r, Nat.find h = r := ⟨_, rfl⟩
    obtain ⟨r1, hr1⟩ : ∃ r, Nat.find hE1 = r := ⟨_, rfl⟩
    obtain ⟨r2, hr2⟩ : ∃ r, Nat.find hE2 = r := ⟨_, rfl⟩
    obtain ⟨r3, hr3⟩ : ∃ r, Nat.find hE3 = r := ⟨_, rfl⟩
    have hs1 := Nat.find_spec hE1
    have hs2 := Nat.find_spec hE2
    have hs3 := Nat.find_spec hE3
    rw [hr1] at hs1 he1
    rw [hr2] at hs2 he2
    rw [hr3] at hs3 he3
    rw [hr0] at hb he1
    have hv0 : (i : ℕ) = 1 ∨ (i : ℕ) = 2 ∨ (i : ℕ) = 3 := by
      have hlt := i.isLt
      have hne : (i : ℕ) ≠ 0 := fun hh => hn0 (Fin.ext hh)
      omega
    have hv1 : (tg i : ℕ) = 1 ∨ (tg i : ℕ) = 2 ∨ (tg i : ℕ) = 3 := by
      have hlt := (tg i).isLt
      have hne : (tg i : ℕ) ≠ 0 := fun hh => hn1 (Fin.ext hh)
      omega
    have hv2 : (tg (tg i) : ℕ) = 1 ∨ (tg (tg i) : ℕ) = 2 ∨ (tg (tg i) : ℕ) = 3 := by
      have hlt := (tg (tg i)).isLt
      have hne : (tg (tg i) : ℕ) ≠ 0 := fun hh => hn2 (Fin.ext hh)
      omega
    have hv3 : (tg (tg (tg i)) : ℕ) = 1 ∨ (tg (tg (tg i)) : ℕ) = 2 ∨
        (tg (tg (tg i)) : ℕ) = 3 := by
      have hlt := (tg (tg (tg i))).isLt
      have hne : (tg (tg (tg i)) : ℕ) ≠ 0 := fun hh => hn3 (Fin.ext hh)
      omega
    have hpair : (i : ℕ) = (tg i : ℕ) ∨ (i : ℕ) = (tg (tg i) : ℕ) ∨
        (i : ℕ) = (tg (tg (tg i)) : ℕ) ∨ (tg i : ℕ) = (tg (tg i) : ℕ) ∨
        (tg i : ℕ) = (tg (tg (tg i)) : ℕ) ∨
        (tg (tg i) : ℕ) = (tg (tg (tg i)) : ℕ) := by omega
    rcases hpair with hp | hp | hp | hp | hp | hp
    · have heq : i = tg i := Fin.ext hp
      rw [← heq] at hs1
      have hle := Nat.find_min' h hs1
      rw [hr0] at hle
      omega
    · have heq : i = tg (tg i) := Fin.ext hp
      rw [← heq] at hs2
      have hle := Nat.find_min' h hs2
      rw [hr0] at hle
      omega
    · have heq : i = tg (tg (tg i)) := Fin.ext hp
      rw [← heq] at hs3
      have hle := Nat.find_min' h hs3
      rw [hr0] at hle
      omega
    · have heq : tg i = tg (tg i) := Fin.ext hp
      rw [← heq] at hs2
      have hle := Nat.find_min' hE1 hs2
      rw [hr1] at hle
      omega
    · have heq : tg i = tg (tg (tg i)) := Fin.ext hp
      rw [← heq] at hs3
      have hle := Nat.find_min' hE1 hs3
      rw [hr1] at hle
      omega
    · have heq : tg (tg i) = tg (tg (tg i)) := Fin.ext hp
      rw [← heq] at hs3
      have hle := Nat.find_min' hE2 hs3
      rw [hr2] at hle
      omega

/-- Each extra chain-depth level is resolved by one extra sweep. -/
theorem skChain_passes (vol add mi : Fin 4 → ℚ) (wt : Fin 4 → WaveType)
    (tg : Fin 4 → Fin 4) : ∀ (n : ℕ) (i : Fin 4), SkChain vol add mi wt tg n i →
    analysis_passes (analysis_additive_zero vol add)
      (analysis_modulation_index_zero vol mi) wt tg n
      (analysis_generate_initial vol) i = false := by
  intro n
  induction n with
  | zero =>
    intro i h
    have hv : vol i < ZERO_VALUE_LIMIT := h
    simp [analysis_passes, analysis_generate_initial, hv]
  | succ n ih =>
    intro i h
    rcases h with h | ⟨hne, hadd, h3⟩
    · exact analysis_pass_preserve_false _ _ wt tg _ i (ih i h)
    · by_cases hv : vol i < ZERO_VALUE_LIMIT
      · refine analysis_pass_preserve_false _ _ wt tg _ i
          (analysis_passes_preserve_false _ _ wt tg _ n i ?_)
        simp [analysis_generate_initial, hv]
      · refine analysis_pass_ready_false _ _ wt tg _ i hne ?_ ?_
        · simp [analysis_additive_zero, hv, hadd]
        · rcases h3 with h3 | h3 | h3
          · exact Or.inr (Or.inl h3)
          · by_cases hv2 : vol (tg i) < ZERO_VALUE_LIMIT
            · refine Or.inl (analysis_passes_preserve_false _ _ wt tg _ n _ ?_)
              simp [analysis_generate_initial, hv2]
            · exact Or.inr (Or.inr (by simp [analysis_modulation_index_zero, hv2, h3]))
          · exact Or.inl (ih _ h3)

theorem run_operator_dependency_analysis_complete (vol add mi : Fin 4 → ℚ)
    (wt : Fin 4 → WaveType) (tg : Fin 4 → Fin 4) (i : Fin 4)
    (h : Skippable vol add mi wt tg i) :
    run_operator_dependency_analysis vol add mi wt tg i = false :=
  skChain_passes vol add mi wt tg 3 i
    (skChain_bound vol add mi wt tg i (skippable_to_chain vol add mi wt tg i h))

/-- C3: `run_operator_dependency_analysis` returns `generate[op] = false`
exactly for the skippable operators, where an operator is skippable iff its
gathered volume is below the zero-value limit, or its additive factor is
below the limit and its modulation target is itself skippable, is a
white-noise operator, or has modulation index below the limit — the least
fixed point of these rules (the inductive predicate `Skippable`), reached by
the triple pass over operators 1..4. -/
theorem run_operator_dependency_analysis_matches_skippable (vol add mi : Fin 4 → ℚ)
    (wt : Fin 4 → WaveType) (tg : Fin 4 → Fin 4) (i : Fin 4) :
    run_operator_dependency_analysis vol add mi wt tg i = false ↔
      Skippable vol add mi wt tg i :=
  ⟨run_operator_dependency_analysis_sound vol add mi wt tg i,
   run_operator_dependency_analysis_complete vol add mi wt tg i⟩

/-- C1: for every state (arbitrary gathered voice data, hence arbitrary
parameter settings and MIDI histories) and every processed batch, every
sample written to the left and right output buffers lies in [-5, +5]: the
accumulated `summed_additive_outputs` entries are clamped to [-5, +5] before
being written out. -/
theorem process_output_within_hard_limit {n : ℕ} (fast_sin : ℚ → ℚ) (tau : ℚ)
    (voices : List (VoiceData n)) (i : Fin n) :
    (-5 ≤ (process fast_sin tau voices).1 i ∧ (process fast_sin tau voices).1 i ≤ 5) ∧
    (-5 ≤ (process fast_sin tau voices).2 i ∧ (process fast_sin tau voices).2 i ≤ 5) := by
  unfold process
  refine ⟨⟨le_max_right _ _, max_le (min_le_right _ _) (by norm_num)⟩,
    ⟨le_max_right _ _, max_le (min_le_right _ _) (by norm_num)⟩⟩

/-! Lemmas for silence preservation (C2). -/

theorem run_analysis_all_false_of_volume_zero (vol add mi : Fin 4 → ℚ)
    (wt : Fin 4 → WaveType) (tg : Fin 4 → Fin 4) (hv : ∀ k, vol k = 0) (k : Fin 4) :
    run_operator_dependency_analysis vol add mi wt tg k = false := by
  have h0 : analysis_generate_initial vol k = false := by
    have : vol k < ZERO_VALUE_LIMIT := by
      rw [hv k]
      norm_num [ZERO_VALUE_LIMIT]
    simp [analysis_generate_initial, this]
  exact analysis_passes_preserve_false _ _ wt tg _ 3 k h0

theorem operator_step_of_not_generate {n : ℕ} (fast_sin : ℚ → ℚ) (tau : ℚ)
    (v : VoiceData n) (generate : Fin 4 → Bool) (k : Fin 4) (s : GenState n)
    (h : generate k = false) :
    operator_step fast_sin tau v generate k s = s := by
  simp [operator_step, h]

theorem process_voice_of_volume_zero {n : ℕ} (fast_sin : ℚ → ℚ) (tau : ℚ)
    (v : VoiceData n) (hv : ∀ k, v.operator_volume k = 0) (summed : Fin n → ℚ × ℚ) :
    process_voice fast_sin tau v summed = summed := by
  have hall := run_analysis_all_false_of_volume_zero v.operator_volume (operator_additive v)
    v.operator_modulation_index v.operator_wave_type v.operator_modulation_targets hv
  unfold process_voice
  dsimp only
  rw [operator_step_of_not_generate _ _ _ _ _ _ (hall 3),
    operator_step_of_not_generate _ _ _ _ _ _ (hall 2),
    operator_step_of_not_generate _ _ _ _ _ _ (hall 1),
    operator_step_of_not_generate _ _ _ _ _ _ (hall 0)]

theorem process_voices_cons {n : ℕ} (fast_sin : ℚ → ℚ) (tau : ℚ) (v : VoiceData n)
    (rest : List (VoiceData n)) (summed : Fin n → ℚ × ℚ) :
    process_voices fast_sin tau (v :: rest) summed =
      process_voices fast_sin tau rest (process_voice fast_sin tau v summed) := rfl

theorem process_voices_of_volume_zero {n : ℕ} (fast_sin : ℚ → ℚ) (tau : ℚ)
    (voices : List (VoiceData n)) (hv : ∀ v ∈ voices, ∀ k, v.operator_volume k = 0) :
    ∀ summed, process_voices fast_sin tau voices summed = summed := by
  induction voices with
  | nil => intro summed; rfl
  | cons v rest ih =>
    intro summed
    rw [process_voices_cons, process_voice_of_volume_zero fast_sin tau v
      (hv v (List.mem_cons_self v rest))]
    exact ih (fun w hw k => hv w (List.mem_cons_of_mem v hw) k) summed

/-- C2: when every gathered operator volume is 0, the dependency analysis
marks every operator of every voice as not generating audio, the
`summed_additive_outputs` accumulator stays at its initial zero for every
entry, and every output frame written by `process` is exactly 0, for any
number of active voices (and hence any MIDI input). -/
theorem process_silent_of_volumes_zero {n : ℕ} (fast_sin : ℚ → ℚ) (tau : ℚ)
    (voices : List (VoiceData n))
    (hv : ∀ v ∈ voices, ∀ k, v.operator_volume k = 0) :
    (∀ v ∈ voices, ∀ k, run_operator_dependency_analysis v.operator_volume
      (operator_additive v) v.operator_modulation_index v.operator_wave_type
      v.operator_modulation_targets k = false) ∧
    process_voices fast_sin tau voices (fun _ => (0, 0)) = (fun _ => (0, 0)) ∧
    (∀ i, (process fast_sin tau voices).1 i = 0 ∧ (process fast_sin tau voices).2 i = 0) := by
  have hzero := process_voices_of_volume_zero fast_sin tau voices hv (fun _ => (0, 0))
  refine ⟨?_, hzero, ?_⟩
  · intro v hvmem k
    exact run_analysis_all_false_of_volume_zero _ _ _ _ _ (hv v hvmem) k
  · intro i
    unfold process
    rw [hzero]
    norm_num

/-- C9: in the sample-generation kernel, operator 1 (index 0) has its
additive factor forced to 1.0 regardless of its additive parameter value and
any LFO addition, its modulation output `sample_adjusted - additive_out` is
exactly zero for every sample of both branches, and its operator stage never
changes any operator's modulation-input row: its entire output goes to the
mix. -/
theorem operator_one_additive_forced_and_never_modulates {n : ℕ} (fast_sin : ℚ → ℚ)
    (tau : ℚ) (v : VoiceData n) :
    operator_additive v 0 = 1 ∧
    (∀ (s : GenState n) (i : Fin n),
      (operator_sample_outputs fast_sin tau v 0 s i).1 = (0, 0)) ∧
    (∀ (generate : Fin 4 → Bool) (s : GenState n) (t : Fin 4) (j : Fin n),
      (operator_step fast_sin tau v generate 0 s).voice_modulation_inputs t j =
        s.voice_modulation_inputs t j) := by
  have hone : operator_additive v 0 = 1 := rfl
  have hmod : ∀ (s : GenState n) (i : Fin n),
      (operator_sample_outputs fast_sin tau v 0 s i).1 = (0, 0) := by
    intro s i
    unfold operator_sample_outputs
    cases v.operator_wave_type 0 with
    | whiteNoise => simp [pd_sub, pd_mul, pd_set1, hone]
    | sine =>
      by_cases hskip : pd_first_over_zero_limit (pd_mul (pd_set1 (v.operator_volume 0))
          (pd_set1 (v.operator_envelope_volumes 0 i))) = true
      · simp only [hskip, if_true]
        simp [pd_sub, pd_mul, pd_set1, hone]
      · simp only [Bool.not_eq_true] at hskip
        simp [hskip]
  refine ⟨hone, hmod, ?_⟩
  intro generate s t j
  unfold operator_step
  by_cases hgen : generate 0 = true
  · simp only [hgen, if_true]
    by_cases ht : t = v.operator_modulation_targets 0
    · simp [ht, hmod s j, pd_add]
    · simp [ht]
  · simp only [Bool.not_eq_true] at hgen
    simp [hgen]

end Gen

/-- Witness for C2 at a concrete input: one active voice with all gathered
volumes zero, one sample, identity fast-sine, zero tau. -/
theorem process_silent_of_volumes_zero_witness :
    (Gen.process (fun x => x) 0 [Gen.zero_voice_data]).1 0 = 0 ∧
    (Gen.process (fun x => x) 0 [Gen.zero_voice_data]).2 0 = 0 :=
  (Gen.process_silent_of_volumes_zero (fun x => x) 0 [Gen.zero_voice_data]
    (by
      intro v hv k
      rw [List.mem_singleton] at hv
      subst hv
      rfl)).2.2 0

namespace Audio

/-- C4: for every 3-byte MIDI event, `process_midi_event` ignores the
channel nibble `c` and dispatches exactly by the status high nibble:
`0b1000` (bytes `128 + c`) triggers `key_off pitch`; `0b1001` (bytes
`144 + c`) with velocity 0 triggers `key_off pitch`; `0b1001` with positive
velocity triggers `key_on pitch velocity`; every other status byte leaves
the state unchanged. -/
theorem process_midi_event_dispatch (s : AudioStateM) (c p vel : ℕ) (hc : c < 16) :
    (process_midi_event s (128 + c, p, vel) = key_off s p) ∧
    (process_midi_event s (144 + c, p, 0) = key_off s p) ∧
    (vel ≠ 0 → process_midi_event s (144 + c, p, vel) = key_on s p vel) ∧
    (∀ d0, d0 < 256 → d0 / 16 ≠ 8 → d0 / 16 ≠ 9 →
      process_midi_event s (d0, p, vel) = some s) := by
  have h8 : (128 + c) / 16 = 8 := by omega
  have h9 : (144 + c) / 16 = 9 := by omega
  refine ⟨?_, ?_, ?_, ?_⟩
  · simp [process_midi_event, h8]
  · simp [process_midi_event, h9]
  · intro hv
    simp [process_midi_event, h9, hv]
  · intro d0 _ hn8 hn9
    simp [process_midi_event, hn8, hn9]

/-- Witness for C4: a note-off on channel 3 (status byte `131 = 0x83`). -/
theorem process_midi_event_dispatch_witness :
    process_midi_event initial_audio_state (131, 60, 100) =
      key_off initial_audio_state 60 :=
  (process_midi_event_dispatch initial_audio_state 3 60 100 (by norm_num)).1

/-- Counterexample for C5 as stated: the event bytes `(0x90, 200, 100)` are
possible byte values, dispatch as key-on, and drive `key_on` into the
out-of-bounds voice-index branch (`none` models the Rust indexing panic),
so that branch is not unreachable over all byte values. -/
theorem process_midi_event_reaches_out_of_bounds_pitch :
    process_midi_event initial_audio_state (144, 200, 100) = none := rfl

/-- C5 (amended): for every MIDI event whose pitch byte is a valid MIDI data
byte (< 128), `key_on`/`key_off` access a valid voice slot and
`process_midi_event` never reaches the out-of-bounds branch. -/
theorem process_midi_event_in_bounds_of_valid_pitch (s : AudioStateM) (d0 p vel : ℕ)
    (hp : p < 128) : (process_midi_event s (d0, p, vel)).isSome = true := by
  unfold process_midi_event key_on key_off
  dsimp only
  by_cases h8 : d0 / 16 = 8
  · simp [h8, hp]
  · by_cases h9 : d0 / 16 = 9
    · by_cases hvel : vel = 0 <;> simp [h8, h9, hvel, hp]
    · simp [h8, h9]

/-- Witness for the amended C5: a note-on at pitch 60. -/
theorem process_midi_event_in_bounds_of_valid_pitch_witness :
    (process_midi_event initial_audio_state (144, 60, 100)).isSome = true :=
  process_midi_event_in_bounds_of_valid_pitch initial_audio_state 144 60 100 (by norm_num)

end Audio

namespace Sync

/-- C10: the current patch index is always a valid index into the 128-patch
array: `set_patch_index` with an index at or beyond 128 is a silent no-op
leaving the whole bank state (index and change flags) unchanged, the bank
starts at index 0, and after any sequence of `set_patch_index` calls
`get_patch_index` is below 128 and `get_current_patch` indexes in bounds. -/
theorem patch_index_always_valid :
    (∀ (b : PatchBankM) (i : ℕ), 128 ≤ i → set_patch_index b i = b) ∧
    (∀ (p : PatchM) (l : List ℕ),
      get_patch_index (l.foldl set_patch_index (initial_patch_bank p)) < 128 ∧
      (get_current_patch (l.foldl set_patch_index (initial_patch_bank p))).isSome = true) := by
  have hstep : ∀ (b : PatchBankM) (i : ℕ), b.patch_index < 128 →
      (set_patch_index b i).patch_index < 128 := by
    intro b i hb
    unfold set_patch_index
    by_cases hi : 128 ≤ i
    · simp only [hi, if_true]
      exact hb
    · simp only [hi, if_false]
      omega
  constructor
  · intro b i hi
    simp [set_patch_index, hi]
  · intro p l
    have hinv : ∀ b : PatchBankM, b.patch_index < 128 →
        (l.foldl set_patch_index b).patch_index < 128 := by
      induction l with
      | nil => intro b hb; exact hb
      | cons x xs ih =>
        intro b hb
        rw [List.foldl_cons]
        exact ih _ (hstep b x hb)
    have h := hinv (initial_patch_bank p) (by norm_num [initial_patch_bank])
    exact ⟨h, by simp [get_current_patch, h]⟩

/-- Witness for C10: `set_patch_index` at 200 is a no-op on a fresh bank. -/
theorem patch_index_always_valid_witness :
    set_patch_index (initial_patch_bank ⟨[]⟩) 200 = initial_patch_bank ⟨[]⟩ :=
  patch_index_always_valid.1 (initial_patch_bank ⟨[]⟩) 200 (by norm_num)

/-- Counterexample for C6 as stated: `set_parameter_from_host` stores the
supplied value without clamping, so value 2 lands in the patch even though
2 is outside [0, 1]. -/
theorem set_parameter_from_host_stores_out_of_range :
    get_parameter_value (set_parameter_from_host example_bank 0 2) 0 = some 2 ∧
    ¬((2 : ℚ) ≤ 1) := by
  refine ⟨rfl, by norm_num⟩

/-- C6 (amended): `set_parameter_from_gui` clamps the supplied normalized
value into [0, 1] before storing it, while `set_parameter_from_host` stores
the supplied value unchanged; hence only GUI-set values are guaranteed to
lie in [0, 1]. -/
theorem set_parameter_clamping (b : PatchBankM) (i : ℕ) (v : ℚ)
    (h : (get_parameter_value b i).isSome = true) :
    get_parameter_value (set_parameter_from_gui b i v) i = some (max (min v 1) 0) ∧
    (0 ≤ max (min v 1) 0 ∧ max (min v 1) 0 ≤ 1) ∧
    get_parameter_value (set_parameter_from_host b i v) i = some v := by
  unfold get_parameter_value at h
  cases hgc : get_current_patch b with
  | none =>
    rw [hgc] at h
    simp at h
  | some p =>
    rw [hgc] at h
    simp only [Option.some_bind] at h
    cases hget : p.parameters.get? i with
    | none =>
      rw [hget] at h
      simp at h
    | some old =>
      have h128 : b.patch_index < 128 := by
        by_contra h128
        unfold get_current_patch at hgc
        rw [dif_neg h128] at hgc
        exact absurd hgc (by simp)
      refine ⟨?_, ⟨le_max_right _ _, max_le (min_le_right _ _) zero_le_one⟩, ?_⟩
      · unfold set_parameter_from_gui
        rw [hgc]
        dsimp only
        rw [hget]
        dsimp only
        unfold get_parameter_value get_current_patch set_current_parameters
        dsimp only
        rw [dif_pos h128]
        simp only [patch_parameter_set_value, if_true, Option.some_bind]
        rw [List.get?_set_eq, hget]
        rfl
      · unfold set_parameter_from_host
        rw [hgc]
        dsimp only
        rw [hget]
        dsimp only
        unfold get_parameter_value get_current_patch set_current_parameters
        dsimp only
        rw [dif_pos h128]
        simp only [patch_parameter_set_value, if_true, Option.some_bind]
        rw [List.get?_set_eq, hget]
        rfl

/-- Witness for the amended C6: a GUI set with value 5 stores the clamp. -/
theorem set_parameter_clamping_witness :
    get_parameter_value (set_parameter_from_gui example_bank 0 5) 0 =
      some (max (min 5 1) 0) :=
  (set_parameter_clamping example_bank 0 5 rfl).1

end Sync

namespace Params

/-- C7 (amended): for every processing parameter kind, LFO addition in
`get_value_with_lfo_addition (some a)` is additive in normalized space with
the sum clamped to [0, 1] — except that master volume, operator volume, LFO
amount and additionally the free-frequency parameters return
`current * 2 ^ a`, and the operator volume toggle ignores the addition.
The hypothesis ties the cached sync value of simple parameters to the
current value. -/
theorem get_value_with_lfo_addition_classification (k : ProcessingParameterKind)
    (to_sync from_sync pow2 : ℚ → ℚ) (sync_cache current a : ℚ)
    (hcache : sync_cache = to_sync current) :
    get_value_with_lfo_addition k to_sync from_sync pow2 sync_cache current (some a) =
      if k = .masterVolume ∨ k = .operatorVolume ∨ k = .freeFrequency ∨ k = .lfoAmount then
        current * pow2 a
      else if k = .operatorVolumeToggle then current
      else spec_lfo_additive_effective to_sync from_sync current a := by
  cases k <;>
    simp [get_value_with_lfo_addition, interpolatable_get_value_with_lfo_addition,
      simple_get_value_with_lfo_addition, master_volume_get_value_with_lfo_addition,
      operator_volume_get_value_with_lfo_addition,
      operator_volume_toggle_get_value_with_lfo_addition,
      operator_mix_get_value_with_lfo_addition, free_frequency_get_value_with_lfo_addition,
      operator_panning_get_value_with_lfo_addition, lfo_amount_get_value_with_lfo_addition,
      spec_lfo_additive_effective, hcache]

/-- Witness for the amended C7: the interpolatable kind follows the additive
spec formula at concrete inputs. -/
theorem get_value_with_lfo_addition_classification_witness :
    get_value_with_lfo_addition .interpolatable id id id (1 / 2) (1 / 2) (some (1 / 4)) =
      spec_lfo_additive_effective id id (1 / 2) (1 / 4) := by
  have h := get_value_with_lfo_addition_classification .interpolatable id id id
    (1 / 2) (1 / 2) (1 / 4) rfl
  simpa using h

/-- Counterexample for C7 as stated: the free-frequency parameter is not
volume-class, yet with identity value mapping, current value 1 and LFO
addition 1 (where `2 ^ 1 = 2`) it returns 2 while the additive-in-sync
formula returns 1. -/
theorem free_frequency_lfo_multiplicative_counterexample :
    ¬ IsVolumeClass ProcessingParameterKind.freeFrequency ∧
    get_value_with_lfo_addition .freeFrequency id id (fun _ => 2) 1 1 (some 1) = 2 ∧
    spec_lfo_additive_effective id id 1 1 = 1 ∧
    (2 : ℚ) ≠ 1 := by
  refine ⟨by decide, ?_, ?_, by norm_num⟩
  · norm_num [get_value_with_lfo_addition, free_frequency_get_value_with_lfo_addition]
  · norm_num [spec_lfo_additive_effective]

end Params

namespace Common

/-- C8: the permutation table for three-target modulation storage has nine
entries, contains every one of the eight 3-bit masks, and exactly one mask —
`[false, false, true]` — appears twice (every other mask appears once). -/
theorem mod_target_storage_three_permutations_duplicates_one :
    mod_target_storage_three_permutations.length = 9 ∧
    (∀ m : Bool × Bool × Bool, m ∈ mod_target_storage_three_permutations) ∧
    List.count (false, false, true) mod_target_storage_three_permutations = 2 ∧
    (∀ m : Bool × Bool × Bool, m = (false, false, true) ∨
      List.count m mod_target_storage_three_permutations = 1) := by
  decide

end Common

end OctaSine
